import Mathlib

/-!
Verification of the GNSS satellite coordinate calculator
(`app/gui_gnss.py`) against its natural-language specification.

The embedding models the parsing layer over exact values: a source line is
represented by its two leading columns (the satellite-number field, a list
of characters) together with the ordered list of numeric tokens that the
regex lexer extracts from the line's data area, each token carried as the
rational value it denotes.  The orbit-propagation layer is modelled over
the real numbers, with `Real.sin`, `Real.cos`, `Real.sqrt` and `Complex.arg`
standing for the corresponding double-precision routines.
-/

namespace Gnss

/-- Python `str.strip()` restricted to spaces: drop leading and trailing
space characters (models `seg[0][0:2].strip()` and the stripping performed
by `int(...)` on its string argument). -/
def pyStrip (s : List Char) : List Char :=
  ((s.dropWhile (fun c => c = ' ')).reverse.dropWhile (fun c => c = ' ')).reverse

/-- Value of a nonempty all-digit character list, `none` if empty or if any
character is not a decimal digit. -/
def digitsVal : List Char → Option ℕ
  | [] => none
  | [c] => if c.isDigit then some (c.toNat - '0'.toNat) else none
  | c :: rest =>
    if c.isDigit then
      (digitsVal rest).map (fun v => (c.toNat - '0'.toNat) * 10 ^ rest.length + v)
    else none

/-- Python `int(s)` on a string: strip whitespace, optional sign, then a
nonempty run of decimal digits; `none` models the `ValueError` branch. -/
def pyInt (s : List Char) : Option ℤ :=
  match pyStrip s with
  | '+' :: rest => (digitsVal rest).map (fun v => (v : ℤ))
  | '-' :: rest => (digitsVal rest).map (fun v => -(v : ℤ))
  | rest => (digitsVal rest).map (fun v => (v : ℤ))

/-- Python `int(tok)` applied to a numeric token, with the token abstracted
by the rational value it denotes: succeeds exactly on integer values
(the epoch fields of a RINEX line are printed as plain integers). -/
def qInt (q : ℚ) : Option ℤ := if q.den = 1 then some q.num else none

/-- Python `int(float(tok))`: truncation of the token's value toward zero. -/
def ratTrunc (q : ℚ) : ℤ := if 0 ≤ q then ⌊q⌋ else ⌈q⌉

/-- A UTC calendar timestamp as built by `datetime(year, mo, da, hh, mm, ss)`. -/
structure Epoch where
  year : ℤ
  month : ℤ
  day : ℤ
  hour : ℤ
  minute : ℤ
  second : ℤ
deriving DecidableEq

/-- Gregorian leap-year rule used by Python's `datetime`. -/
def isLeapYear (y : ℤ) : Bool := y % 4 = 0 && (y % 100 ≠ 0 || y % 400 = 0)

/-- Number of days in a month of the proleptic Gregorian calendar. -/
def daysInMonth (y m : ℤ) : ℤ :=
  if m = 1 ∨ m = 3 ∨ m = 5 ∨ m = 7 ∨ m = 8 ∨ m = 10 ∨ m = 12 then 31
  else if m = 4 ∨ m = 6 ∨ m = 9 ∨ m = 11 then 30
  else if isLeapYear y then 29
  else 28

/-- Range checks performed by the `datetime` constructor; a failure raises
`ValueError`, which the parser catches by skipping the block. -/
def validEpoch (year mo da hh mi ss : ℤ) : Bool :=
  1 ≤ year && year ≤ 9999 && 1 ≤ mo && mo ≤ 12 && 1 ≤ da && da ≤ daysInMonth year mo
    && 0 ≤ hh && hh ≤ 23 && 0 ≤ mi && mi ≤ 59 && 0 ≤ ss && ss ≤ 59

/-- `parse_epoch_tokens` (gui_gnss.py lines 43-47): interpret the first six
numeric tokens as 2-digit year, month, day, hour, minute, second; the year
is `1900 + yy` when `yy >= 80` and `2000 + yy` otherwise; the second is
`int(float(tok))`, truncating toward zero.  `none` models a raised
`ValueError` (non-integer field or `datetime` range failure). -/
def parseEpoch6 (t0 t1 t2 t3 t4 t5 : ℚ) : Option Epoch :=
  match qInt t0, qInt t1, qInt t2, qInt t3, qInt t4 with
  | some yy, some mo, some da, some hh, some mi =>
    let year := if 80 ≤ yy then 1900 + yy else 2000 + yy
    let ss := ratTrunc t5
    if validEpoch year mo da hh mi ss then
      some ⟨year, mo, da, hh, mi, ss⟩
    else none
  | _, _, _, _, _ => none

/-- Entry point of `parse_epoch_tokens`: the first six tokens are consumed,
anything beyond is ignored; fewer than six raises `IndexError` (caught by
the caller as a skip), modelled by `none`. -/
def parse_epoch_tokens (tokens : List ℚ) : Option Epoch :=
  match tokens with
  | t0 :: t1 :: t2 :: t3 :: t4 :: t5 :: _ => parseEpoch6 t0 t1 t2 t3 t4 t5
  | _ => none

/-- One source line of the data block: `sv` is the two leading columns
(`ln[0:2]`), `nums` the numeric tokens the regex extracts from the line's
data area (`ln[2:]` for the clock line, `ln[3:]` for orbit lines). -/
structure RawLine where
  sv : List Char
  nums : List ℚ
deriving DecidableEq

/-- An 8-line satellite block (`body[i:i+8]`). -/
structure Block where
  l1 : RawLine
  l2 : RawLine
  l3 : RawLine
  l4 : RawLine
  l5 : RawLine
  l6 : RawLine
  l7 : RawLine
  l8 : RawLine
deriving DecidableEq

/-- The padding loop of `four` (gui_gnss.py lines 116-117): append `'0.0'`
tokens while fewer than 4 are present. -/
def padFour (l : List ℚ) : List ℚ :=
  if h : l.length < 4 then padFour (l ++ [0]) else l
termination_by 4 - l.length
decreasing_by
  simp only [List.length_append, List.length_cons, List.length_nil]
  omega

/-- `four` (gui_gnss.py lines 101-118): the first four numeric tokens of an
orbit-parameter line, missing trailing values defaulting to `0.0`. -/
def four (nums : List ℚ) : List ℚ := (padFour nums).take 4

/-- Python `f"G\x7bint(prn_raw):02d\x7d"`: zero-padded two-digit formatting
after a `G` prefix. -/
def formatPrn (n : ℤ) : List Char :=
  'G' :: (if 0 ≤ n ∧ n < 10 then '0' :: (toString n).toList else (toString n).toList)

/-- A parsed ephemeris record (the dict built at gui_gnss.py lines 190-213). -/
structure EphRecord where
  prn : List Char
  toc : Epoch
  af0 : ℚ
  af1 : ℚ
  af2 : ℚ
  IODE : ℚ
  Crs : ℚ
  DeltaN : ℚ
  M0 : ℚ
  Cuc : ℚ
  e : ℚ
  Cus : ℚ
  sqrtA : ℚ
  Toe : ℚ
  Cic : ℚ
  Omega0 : ℚ
  Cis : ℚ
  i0 : ℚ
  Crc : ℚ
  omega : ℚ
  OmegaDot : ℚ
  IDOT : ℚ
deriving DecidableEq

/-- Processing of one 8-line block (gui_gnss.py lines 60-213): the PRN gate
(empty field, leading `R`/`E`, non-numeric PRN), the requirement of at
least 8 tokens on the time/clock line, epoch parsing, and the extraction of
the orbit parameters from lines 2-6 via `four`.  `none` models `continue`. -/
def extractBlock (seg : Block) : Option EphRecord :=
  let prn_raw := pyStrip seg.l1.sv
  if prn_raw = [] then none
  else if prn_raw.head? = some 'R' ∨ prn_raw.head? = some 'E' then none
  else
    match pyInt prn_raw with
    | none => none
    | some prnNum =>
      match seg.l1.nums with
      | t0 :: t1 :: t2 :: t3 :: t4 :: t5 :: t6 :: t7 :: rest =>
        match parse_epoch_tokens [t0, t1, t2, t3, t4, t5] with
        | none => none
        | some toc =>
          let af0 := t6
          let af1 := t7
          let af2 := match rest with | [] => 0 | t8 :: _ => t8
          match four seg.l2.nums, four seg.l3.nums, four seg.l4.nums,
                four seg.l5.nums, four seg.l6.nums with
          | [iode, crs, dn, m0], [cuc, ecc, cus, sqa], [toe, cic, om0, cis],
              [ii0, crc, om, omd], [idot, _, _, _] =>
            some { prn := formatPrn prnNum, toc := toc, af0 := af0, af1 := af1,
                   af2 := af2, IODE := iode, Crs := crs, DeltaN := dn, M0 := m0,
                   Cuc := cuc, e := ecc, Cus := cus, sqrtA := sqa, Toe := toe,
                   Cic := cic, Omega0 := om0, Cis := cis, i0 := ii0, Crc := crc,
                   omega := om, OmegaDot := omd, IDOT := idot }
          | _, _, _, _, _ => none
      | _ => none

/-- `extract_gps_ephemeris` (gui_gnss.py lines 50-214): consume the body in
blocks of 8 lines while at least 8 lines remain; a trailing partial block
is discarded; skipped blocks contribute nothing. -/
def extract_gps_ephemeris : List RawLine → List EphRecord
  | a :: b :: c :: d :: e :: f :: g :: h :: rest =>
    ((extractBlock ⟨a, b, c, d, e, f, g, h⟩).toList) ++ extract_gps_ephemeris rest
  | _ => []

/-- The header marker searched for by `get_leap_seconds`. -/
def leapMarker : List Char := "LEAP SECONDS".toList

/-- `get_leap_seconds` (gui_gnss.py lines 33-40): on the first header line
containing the marker, return `int(ln[:6])`, or 18 if that raises; return
18 when no line contains the marker. -/
def get_leap_seconds : List (List Char) → ℤ
  | [] => 18
  | ln :: rest =>
    if leapMarker <:+: ln then
      match pyInt (ln.take 6) with
      | some n => n
      | none => 18
    else get_leap_seconds rest

/-- Python `%` on floats with a positive modulus, over exact rationals. -/
def pymodQ (a b : ℚ) : ℚ := a - b * ⌊a / b⌋

/-- The selection key of `App.calculate` (gui_gnss.py line 761):
`abs((sow - Toe + 302400) % 604800 - 302400)`. -/
def selKey (sow toe : ℚ) : ℚ := |pymodQ (sow - toe + 302400) 604800 - 302400|

/-- Python `min(l, key=k)`: fold keeping the first element whose key is
strictly smaller than every earlier key. -/
def minByKey {α : Type} (key : α → ℚ) : List α → Option α
  | [] => none
  | x :: xs => some (xs.foldl (fun best y => if key y < key best then y else best) x)

/-- The ephemeris selector of `App.calculate` (gui_gnss.py lines 754-761):
filter the catalog to the requested satellite and take the record whose
`Toe` minimizes the half-week-folded offset to the observation's
seconds-of-week; `none` models the missing-satellite error dialog. -/
def selectEph (ephs : List EphRecord) (sv : List Char) (sow : ℚ) : Option EphRecord :=
  minByKey (fun r => selKey sow r.Toe) (ephs.filter (fun r => r.prn = sv))

/-- A sample parsed record used to exercise the selector and propagator on
concrete inputs. -/
def sampleRecA : EphRecord :=
  { prn := ['G', '0', '1'], toc := ⟨2023, 9, 9, 0, 0, 0⟩, af0 := 0, af1 := 0,
    af2 := 0, IODE := 0, Crs := 0, DeltaN := 0, M0 := 0, Cuc := 0, e := 0,
    Cus := 0, sqrtA := 0, Toe := 302500, Cic := 0, Omega0 := 0, Cis := 0,
    i0 := 0, Crc := 0, omega := 0, OmegaDot := 0, IDOT := 0 }

/-- A second sample record for the same satellite with a different `Toe`. -/
def sampleRecB : EphRecord := { sampleRecA with Toe := 100 }

/-- Days since 1970-01-01 of a proleptic Gregorian date (the day-count
underlying `datetime` subtraction). -/
def daysFromCivil (y m d : ℤ) : ℤ :=
  let y2 := y - (if m ≤ 2 then 1 else 0)
  let era := Int.fdiv y2 400
  let yoe := y2 - era * 400
  let mShift := if m ≤ 2 then m + 9 else m - 3
  let doy := Int.fdiv (153 * mShift + 2) 5 + d - 1
  let doe := yoe * 365 + Int.fdiv yoe 4 - Int.fdiv yoe 100 + doy
  era * 146097 + doe - 719468

/-- `utc_to_gps_seconds_of_week` (gui_gnss.py lines 217-225): GPS time is
UTC plus the leap seconds; the total seconds since 1980-01-06 are split
into a week number (floor) and the seconds-of-week remainder. -/
def utc_to_gps_seconds_of_week (dt : Epoch) (leap : ℤ) : ℤ × ℚ :=
  let days := daysFromCivil dt.year dt.month dt.day - daysFromCivil 1980 1 6
  let total : ℚ :=
    ((days * 86400 + dt.hour * 3600 + dt.minute * 60 + dt.second + leap : ℤ) : ℚ)
  let week : ℤ := ⌊total / 604800⌋
  (week, total - week * 604800)

/-- Earth gravitational constant, m^3/s^2 (gui_gnss.py line 10). -/
noncomputable def MU : ℝ := 3.986005e14

/-- Earth rotation rate, rad/s (gui_gnss.py line 11). -/
noncomputable def OMEGA_E : ℝ := 7.292115e-5

/-- First loop of `normalize_tk` (gui_gnss.py lines 231-232): subtract a
week while the value exceeds the half week. -/
noncomputable def loopSub (tk : ℝ) : ℝ :=
  if 302400 < tk then loopSub (tk - 604800) else tk
termination_by (⌈(tk - 302400) / 604800⌉).toNat
decreasing_by
  have h1 : ((tk - 604800) - 302400) / 604800 = (tk - 302400) / 604800 - 1 := by ring
  have h2 : (0 : ℝ) < (tk - 302400) / 604800 := by
    apply div_pos _ (by norm_num)
    linarith
  rw [h1, Int.ceil_sub_one]
  have h3 : 0 < ⌈(tk - 302400) / 604800⌉ := Int.ceil_pos.mpr h2
  omega

/-- Second loop of `normalize_tk` (gui_gnss.py lines 233-234): add a week
while the value is below the negative half week. -/
noncomputable def loopAdd (tk : ℝ) : ℝ :=
  if tk < -302400 then loopAdd (tk + 604800) else tk
termination_by (⌈(-302400 - tk) / 604800⌉).toNat
decreasing_by
  have h1 : (-302400 - (tk + 604800)) / 604800 = (-302400 - tk) / 604800 - 1 := by ring
  have h2 : (0 : ℝ) < (-302400 - tk) / 604800 := by
    apply div_pos _ (by norm_num)
    linarith
  rw [h1, Int.ceil_sub_one]
  have h3 : 0 < ⌈(-302400 - tk) / 604800⌉ := Int.ceil_pos.mpr h2
  omega

/-- `normalize_tk` (gui_gnss.py lines 228-235). -/
noncomputable def normalize_tk (tk : ℝ) : ℝ := loopAdd (loopSub tk)

/-- Step-counting semantics of the first `normalize_tk` loop over the
extended reals: `while tk > 302400: tk -= 604800.0`, with `none` when the
given number of iterations does not reach the exit condition.  The value
domain includes the two infinities because the source's `tk` is a double:
`parse_float` maps an overflowing `Toe` token to `inf`, and IEEE-754
arithmetic on infinities (`inf - 604800.0 = inf`) coincides with `EReal`
arithmetic. -/
noncomputable def loopSubFuelE : ℕ → EReal → Option EReal
  | 0, tk => if ((302400 : ℝ) : EReal) < tk then none else some tk
  | n + 1, tk =>
    if ((302400 : ℝ) : EReal) < tk then loopSubFuelE n (tk - ((604800 : ℝ) : EReal))
    else some tk

/-- Step-counting semantics of the second `normalize_tk` loop over the
extended reals: `while tk < -302400: tk += 604800.0`
(`-inf + 604800.0 = -inf` in both IEEE-754 and `EReal`). -/
noncomputable def loopAddFuelE : ℕ → EReal → Option EReal
  | 0, tk => if tk < ((-302400 : ℝ) : EReal) then none else some tk
  | n + 1, tk =>
    if tk < ((-302400 : ℝ) : EReal) then loopAddFuelE n (tk + ((604800 : ℝ) : EReal))
    else some tk

/-- Python `%` on floats with a positive modulus, over the reals. -/
noncomputable def pymodR (a b : ℝ) : ℝ := a - b * ⌊a / b⌋

/-- `normalize_angle` (gui_gnss.py lines 238-241). -/
noncomputable def normalize_angle (x : ℝ) : ℝ :=
  pymodR (x + Real.pi) (2 * Real.pi) - Real.pi

/-- `math.atan2 y x` via the complex argument. -/
noncomputable def atan2 (y x : ℝ) : ℝ := Complex.arg ⟨x, y⟩

/-- The fixed-point Kepler iteration of `compute_gps_ecef` (gui_gnss.py
lines 293-298) without the early exit: `E 0 = Mk`,
`E (i+1) = Mk + ecc * sin (E i)`. -/
noncomputable def keplerSeq (ecc Mk : ℝ) : ℕ → ℝ
  | 0 => Mk
  | n + 1 => Mk + ecc * Real.sin (keplerSeq ecc Mk n)

/-- The Kepler loop as written (gui_gnss.py lines 293-298): up to the given
number of iterations, stopping once successive iterates differ by less
than `1e-12`. -/
noncomputable def keplerLoop (ecc Mk : ℝ) : ℕ → ℝ → ℝ
  | 0, Ek => Ek
  | n + 1, Ek =>
    let next := Mk + ecc * Real.sin Ek
    if |next - Ek| < 1e-12 then next else keplerLoop ecc Mk n next

/-- The ECEF result and the intermediate quantities returned by
`compute_gps_ecef` (gui_gnss.py lines 380-383). -/
structure GpsEcef where
  X : ℝ
  Y : ℝ
  Z : ℝ
  a : ℝ
  n0 : ℝ
  n : ℝ
  tk : ℝ
  Mk : ℝ
  Ek : ℝ
  Vk : ℝ
  Phi : ℝ
  u : ℝ
  r : ℝ
  i : ℝ
  Omega_k : ℝ

/-- `compute_gps_ecef` (gui_gnss.py lines 244-383): the IS-GPS-200
propagation chain from one ephemeris record, an observation instant and
the leap-second count to ECEF coordinates. -/
noncomputable def compute_gps_ecef (eph : EphRecord) (t_obs : Epoch) (leap : ℤ) : GpsEcef :=
  let a : ℝ := (eph.sqrtA : ℝ) * (eph.sqrtA : ℝ)
  let n0 := Real.sqrt (MU / a ^ 3)
  let n := n0 + (eph.DeltaN : ℝ)
  let sow : ℝ := ((utc_to_gps_seconds_of_week t_obs leap).2 : ℝ)
  let tk := normalize_tk (sow - (eph.Toe : ℝ))
  let Mk := (eph.M0 : ℝ) + n * tk
  let Ek := keplerLoop (eph.e : ℝ) Mk 10 Mk
  let sin_vk := Real.sqrt (1 - (eph.e : ℝ) ^ 2) * Real.sin Ek / (1 - (eph.e : ℝ) * Real.cos Ek)
  let cos_vk := (Real.cos Ek - (eph.e : ℝ)) / (1 - (eph.e : ℝ) * Real.cos Ek)
  let Vk := atan2 sin_vk cos_vk
  let Phi := Vk + (eph.omega : ℝ)
  let du := (eph.Cus : ℝ) * Real.sin (2 * Phi) + (eph.Cuc : ℝ) * Real.cos (2 * Phi)
  let dr := (eph.Crs : ℝ) * Real.sin (2 * Phi) + (eph.Crc : ℝ) * Real.cos (2 * Phi)
  let di := (eph.Cis : ℝ) * Real.sin (2 * Phi) + (eph.Cic : ℝ) * Real.cos (2 * Phi)
  let u := normalize_angle (Phi + du)
  let r := a * (1 - (eph.e : ℝ) * Real.cos Ek) + dr
  let i_k := (eph.i0 : ℝ) + (eph.IDOT : ℝ) * tk + di
  let x_prime := r * Real.cos u
  let y_prime := r * Real.sin u
  let Omega_k := pymodR ((eph.Omega0 : ℝ) + ((eph.OmegaDot : ℝ) - OMEGA_E) * tk) (2 * Real.pi)
  { X := x_prime * Real.cos Omega_k - y_prime * Real.cos i_k * Real.sin Omega_k
    Y := x_prime * Real.sin Omega_k + y_prime * Real.cos i_k * Real.cos Omega_k
    Z := y_prime * Real.sin i_k
    a := a, n0 := n0, n := n, tk := tk, Mk := Mk, Ek := Ek, Vk := Vk
    Phi := Phi, u := u, r := r, i := i_k, Omega_k := Omega_k }

/-! Theorems. -/

/-- Characterization of a successful epoch parse: the five leading tokens
are integer-valued and the resulting timestamp is built from them with the
pivot rule on the year and truncation on the seconds. -/
theorem parse_epoch_tokens_eq (t0 t1 t2 t3 t4 t5 : ℚ) (rest : List ℚ) (ep : Epoch)
    (hp : parse_epoch_tokens (t0 :: t1 :: t2 :: t3 :: t4 :: t5 :: rest) = some ep) :
    ∃ yy mo da hh mi : ℤ, qInt t0 = some yy ∧ qInt t1 = some mo ∧ qInt t2 = some da ∧
      qInt t3 = some hh ∧ qInt t4 = some mi ∧
      ep = ⟨if 80 ≤ yy then 1900 + yy else 2000 + yy, mo, da, hh, mi, ratTrunc t5⟩ := by
  simp only [parse_epoch_tokens] at hp
  unfold parseEpoch6 at hp
  rcases h0 : qInt t0 with _ | yy
  · rw [h0] at hp; simp at hp
  rcases h1 : qInt t1 with _ | mo
  · rw [h0, h1] at hp; simp at hp
  rcases h2 : qInt t2 with _ | da
  · rw [h0, h1, h2] at hp; simp at hp
  rcases h3 : qInt t3 with _ | hh
  · rw [h0, h1, h2, h3] at hp; simp at hp
  rcases h4 : qInt t4 with _ | mi
  · rw [h0, h1, h2, h3, h4] at hp; simp at hp
  rw [h0, h1, h2, h3, h4] at hp
  simp only [] at hp
  refine ⟨yy, mo, da, hh, mi, rfl, rfl, rfl, rfl, rfl, ?_⟩
  split at hp
  case _ hyy =>
    split at hp
    · cases hp; simp [hyy]
    · cases hp
  case _ hyy =>
    split at hp
    · cases hp; simp [hyy]
    · cases hp

/-- Helper: a parse of a token list with at least six entries exposes the
six leading tokens. -/
theorem parse_epoch_tokens_shape (tokens : List ℚ) (ep : Epoch)
    (hp : parse_epoch_tokens tokens = some ep) :
    ∃ t0 t1 t2 t3 t4 t5 rest,
      tokens = t0 :: t1 :: t2 :: t3 :: t4 :: t5 :: rest := by
  rcases tokens with _ | ⟨t0, _ | ⟨t1, _ | ⟨t2, _ | ⟨t3, _ | ⟨t4, _ | ⟨t5, rest⟩⟩⟩⟩⟩⟩
  · simp [parse_epoch_tokens] at hp
  · simp [parse_epoch_tokens] at hp
  · simp [parse_epoch_tokens] at hp
  · simp [parse_epoch_tokens] at hp
  · simp [parse_epoch_tokens] at hp
  · simp [parse_epoch_tokens] at hp
  · exact ⟨t0, t1, t2, t3, t4, t5, rest, rfl⟩

/-- Truncation toward zero: the truncated value never exceeds the token in
magnitude and differs from it by less than one. -/
theorem ratTrunc_bounds (q : ℚ) : |(ratTrunc q : ℚ)| ≤ |q| ∧ |q - (ratTrunc q : ℚ)| < 1 := by
  unfold ratTrunc
  split
  case isTrue h =>
    have h1 : (⌊q⌋ : ℚ) ≤ q := Int.floor_le q
    have h2 : q - 1 < (⌊q⌋ : ℚ) := Int.sub_one_lt_floor q
    have h3 : (0 : ℚ) ≤ (⌊q⌋ : ℚ) := by exact_mod_cast Int.floor_nonneg.mpr h
    constructor
    · rw [abs_of_nonneg h3, abs_of_nonneg h]; exact h1
    · rw [abs_of_nonneg (by linarith)]; linarith
  case isFalse h =>
    push_neg at h
    have h1 : q ≤ (⌈q⌉ : ℚ) := Int.le_ceil q
    have h2 : (⌈q⌉ : ℚ) < q + 1 := Int.ceil_lt_add_one q
    have h3 : (⌈q⌉ : ℚ) ≤ 0 := by
      have : ⌈q⌉ ≤ (0 : ℤ) := Int.ceil_le.mpr (by exact_mod_cast h.le)
      exact_mod_cast this
    constructor
    · rw [abs_of_nonpos h3, abs_of_nonpos h.le]; linarith
    · rw [abs_of_nonpos (by linarith)]; linarith

/-- C1 (amended): for every ephemeris block whose epoch line parses, the
reference epoch's calendar year is derived from the 2-digit year token
`yy` by the pivot rule of the code: if `80 ≤ yy` the year is `1900 + yy`,
otherwise it is `2000 + yy`. -/
theorem epoch_year_pivot (tokens : List ℚ) (ep : Epoch) (t0 : ℚ) (yy : ℤ)
    (hp : parse_epoch_tokens tokens = some ep)
    (ht : tokens.head? = some t0) (hy : qInt t0 = some yy) :
    (80 ≤ yy → ep.year = 1900 + yy) ∧ (yy < 80 → ep.year = 2000 + yy) := by
  obtain ⟨a0, a1, a2, a3, a4, a5, rest, rfl⟩ := parse_epoch_tokens_shape tokens ep hp
  simp only [List.head?_cons, Option.some.injEq] at ht
  subst ht
  obtain ⟨yy2, mo, da, hh, mi, h0, _, _, _, _, hep⟩ :=
    parse_epoch_tokens_eq _ _ _ _ _ _ _ _ hp
  rw [hy] at h0
  cases h0
  constructor
  · intro h; rw [hep]; simp [h]
  · intro h; rw [hep]; simp [not_le.mpr h]

/-- C1 counterexample: the claimed pivot direction (`yy < 80` giving
`1900 + yy`) is refuted by token `23`, which yields year 2023, not 1923. -/
theorem epoch_year_pivot_cex :
    parse_epoch_tokens [23, 9, 9, 0, 0, 9] = some ⟨2023, 9, 9, 0, 0, 9⟩ ∧
    (23 : ℤ) < 80 ∧ (2023 : ℤ) ≠ 1900 + 23 := by
  refine ⟨by decide, by norm_num, by norm_num⟩

/-- Witness for `epoch_year_pivot` at a concrete parsed block. -/
theorem epoch_year_pivot_witness :
    Epoch.year ⟨1985, 2, 28, 23, 59, 59⟩ = 1900 + 85 :=
  (epoch_year_pivot [85, 2, 28, 23, 59, 59] ⟨1985, 2, 28, 23, 59, 59⟩ 85 85
    (by decide) (by decide) (by decide)).1 (by norm_num)

/-- C10: for every ephemeris block that parses, the seconds component of
the reference epoch is the seconds token truncated toward zero: it agrees
with the token up to a fractional part smaller than one and never exceeds
it in magnitude. -/
theorem epoch_seconds_truncation (tokens : List ℚ) (ep : Epoch) (t5 : ℚ)
    (hp : parse_epoch_tokens tokens = some ep) (ht : tokens.get? 5 = some t5) :
    ep.second = ratTrunc t5 ∧ |(ep.second : ℚ)| ≤ |t5| ∧ |t5 - (ep.second : ℚ)| < 1 := by
  obtain ⟨a0, a1, a2, a3, a4, a5, rest, rfl⟩ := parse_epoch_tokens_shape tokens ep hp
  simp only [List.get?_cons_succ, List.get?_cons_zero, Option.some.injEq] at ht
  subst ht
  obtain ⟨yy, mo, da, hh, mi, _, _, _, _, _, hep⟩ :=
    parse_epoch_tokens_eq _ _ _ _ _ _ _ _ hp
  have hsec : ep.second = ratTrunc a5 := by rw [hep]
  rw [hsec]
  exact ⟨rfl, (ratTrunc_bounds a5).1, (ratTrunc_bounds a5).2⟩

/-- Witness for `epoch_seconds_truncation`: the token `29.5` is stored as
29 seconds. -/
theorem epoch_seconds_truncation_witness :
    Epoch.second ⟨2023, 9, 9, 0, 0, 29⟩ = ratTrunc (59 / 2) ∧
    |((Epoch.second ⟨2023, 9, 9, 0, 0, 29⟩ : ℤ) : ℚ)| ≤ |(59 / 2 : ℚ)| ∧
    |(59 / 2 : ℚ) - ((Epoch.second ⟨2023, 9, 9, 0, 0, 29⟩ : ℤ) : ℚ)| < 1 :=
  epoch_seconds_truncation [23, 9, 9, 0, 0, 59 / 2] ⟨2023, 9, 9, 0, 0, 29⟩ (59 / 2)
    (by norm_num [parse_epoch_tokens, parseEpoch6, qInt, ratTrunc, validEpoch,
      daysInMonth, isLeapYear])
    (by norm_num)

/-- The padding loop fills a short token list with zeros up to length 4. -/
theorem padFour_eq (l : List ℚ) : padFour l = l ++ List.replicate (4 - l.length) 0 := by
  induction l using padFour.induct with
  | case1 l hlt ih =>
    rw [padFour, dif_pos hlt, ih]
    have hlen : 4 - l.length = (4 - (l ++ [0]).length) + 1 := by
      simp only [List.length_append, List.length_cons, List.length_nil]
      omega
    rw [hlen, List.replicate_succ, List.append_assoc]
    rfl
  | case2 l hlt =>
    rw [padFour, dif_neg hlt]
    have : 4 - l.length = 0 := by omega
    simp [this]

/-- `four` keeps the first four tokens and defaults missing trailing ones
to zero. -/
theorem four_eq (nums : List ℚ) :
    four nums = nums.take 4 ++ List.replicate (4 - nums.length) 0 := by
  unfold four
  rw [padFour_eq]
  rcases le_or_lt nums.length 4 with h | h
  · have h4 : (nums ++ List.replicate (4 - nums.length) 0).length = 4 := by
      simp only [List.length_append, List.length_replicate]
      omega
    rw [List.take_of_length_le (le_of_eq h4), List.take_of_length_le h]
  · have : 4 - nums.length = 0 := by omega
    simp [this, List.take_append_eq_append_take]

/-- C6: the numeric token extractor defaults missing trailing values to
`0.0` for the four-token orbit-parameter lines, whereas a time/clock line
with fewer than 8 tokens makes the whole block fail to parse. -/
theorem token_extractor_defaults :
    (∀ nums : List ℚ, four nums = nums.take 4 ++ List.replicate (4 - nums.length) 0) ∧
    (∀ seg : Block, seg.l1.nums.length < 8 → extractBlock seg = none) := by
  refine ⟨four_eq, ?_⟩
  intro seg h
  simp only [extractBlock]
  split
  · rfl
  · split
    · rfl
    · split
      · rfl
      · split
        case _ t0 t1 t2 t3 t4 t5 t6 t7 rest heq =>
          rw [heq] at h
          simp only [List.length_cons] at h
          omega
        · rfl

/-- Witness for `token_extractor_defaults`: a clock line with 7 tokens is
rejected; a 2-token orbit line is padded to `[1, 2, 0, 0]`. -/
theorem token_extractor_defaults_witness :
    extractBlock ⟨⟨['0', '2'], [23, 9, 9, 0, 0, 0, 0]⟩, ⟨[], []⟩, ⟨[], []⟩, ⟨[], []⟩,
      ⟨[], []⟩, ⟨[], []⟩, ⟨[], []⟩, ⟨[], []⟩⟩ = none ∧
    four [1, 2] = [1, 2, 0, 0] := by
  constructor
  · exact token_extractor_defaults.2 _ (by decide)
  · rw [token_extractor_defaults.1 [1, 2]]
    decide

/-- Dropping a prefix cannot remove a final element the predicate keeps. -/
theorem dropWhile_keep_last (p : Char → Bool) (c : Char) (hp : p c = false)
    (r : List Char) : ∃ r2, List.dropWhile p (r ++ [c]) = r2 ++ [c] := by
  induction r with
  | nil => exact ⟨[], by simp [List.dropWhile_cons, hp]⟩
  | cons a r ih =>
    by_cases ha : p a
    · simpa [List.dropWhile_cons, ha] using ih
    · exact ⟨a :: r, by simp [List.dropWhile_cons, ha]⟩

/-- Stripping spaces preserves a non-space leading character. -/
theorem pyStrip_head (c : Char) (t : List Char) (hc : ¬c = ' ') :
    (pyStrip (c :: t)).head? = some c := by
  unfold pyStrip
  rw [List.dropWhile_cons]
  simp only [hc, decide_eq_true_eq, if_false, decide_False, Bool.false_eq_true, ite_false]
  obtain ⟨r2, hr2⟩ := dropWhile_keep_last (fun x => x = ' ') c (by simp [hc]) t.reverse
  rw [List.reverse_cons, hr2, List.reverse_append]
  rfl

/-- A successfully parsed block carries the formatted PRN of its
satellite-number field. -/
theorem extractBlock_prn (seg : Block) (r : EphRecord) (h : extractBlock seg = some r) :
    ∃ n : ℤ, pyInt (pyStrip seg.l1.sv) = some n ∧ r.prn = formatPrn n := by
  simp only [extractBlock] at h
  split at h
  · cases h
  · split at h
    · cases h
    · split at h
      · cases h
      · case _ n hn =>
        split at h
        · case _ t0 t1 t2 t3 t4 t5 t6 t7 rest heq =>
          split at h
          · cases h
          · split at h
            · cases h
              exact ⟨n, hn, rfl⟩
            · cases h
        · cases h

/-- The catalog produced by the parser only contains records built by
`extractBlock`. -/
theorem extract_mem_prn (body : List RawLine) (r : EphRecord)
    (hr : r ∈ extract_gps_ephemeris body) : ∃ n : ℤ, r.prn = formatPrn n := by
  induction body using extract_gps_ephemeris.induct with
  | case1 a b c d e f g h8 rest ih =>
    rw [extract_gps_ephemeris] at hr
    rcases List.mem_append.mp hr with h1 | h2
    · have hsome : extractBlock ⟨a, b, c, d, e, f, g, h8⟩ = some r := by
        simpa [Option.mem_toList, Option.mem_def] using h1
      obtain ⟨n, _, hn⟩ := extractBlock_prn _ _ hsome
      exact ⟨n, hn⟩
    · exact ih h2
  | case2 l hshape =>
    rw [extract_gps_ephemeris] at hr
    · cases hr
    · exact hshape

/-- C7: a block whose two-character PRN field starts with `R` or `E` never
yields a record, and every record in the parser's output has a satellite
identifier of the form `G` followed by the zero-padded two-digit PRN. -/
theorem constellation_gate :
    (∀ seg : Block, (seg.l1.sv.head? = some 'R' ∨ seg.l1.sv.head? = some 'E') →
      extractBlock seg = none) ∧
    (∀ (body : List RawLine) (r : EphRecord), r ∈ extract_gps_ephemeris body →
      ∃ n : ℤ, r.prn = formatPrn n) := by
  constructor
  · intro seg hh
    rcases hsv : seg.l1.sv with _ | ⟨c, t⟩
    · rw [hsv] at hh
      simp at hh
    · rw [hsv] at hh
      simp only [List.head?_cons, Option.some.injEq] at hh
      have hcs : ¬c = ' ' := by rcases hh with rfl | rfl <;> decide
      have hhead : (pyStrip seg.l1.sv).head? = some c := by
        rw [hsv]
        exact pyStrip_head c t hcs
      have hstrip : (pyStrip seg.l1.sv).head? = some 'R' ∨
          (pyStrip seg.l1.sv).head? = some 'E' := by
        rcases hh with rfl | rfl
        · exact Or.inl hhead
        · exact Or.inr hhead
      simp only [extractBlock]
      by_cases hemp : pyStrip seg.l1.sv = []
      · rw [if_pos hemp]
      · rw [if_neg hemp, if_pos hstrip]
  · exact extract_mem_prn

/-- Witness for `constellation_gate`: a GLONASS-marked block is skipped,
and a parsed GPS block yields identifier `G01`. -/
theorem constellation_gate_witness :
    extractBlock ⟨⟨['R', '3'], [23, 9, 9, 0, 0, 0, 0, 0]⟩, ⟨[], []⟩, ⟨[], []⟩, ⟨[], []⟩,
      ⟨[], []⟩, ⟨[], []⟩, ⟨[], []⟩, ⟨[], []⟩⟩ = none :=
  constellation_gate.1 _ (Or.inl (by decide))

/-- C8: `get_leap_seconds` returns the integer parsed from the first six
columns of the first header line containing the leap-second marker, and
the fallback 18 when no line contains the marker or when those columns do
not parse as an integer. -/
theorem leap_seconds_spec :
    (∀ header : List (List Char), (∀ ln ∈ header, ¬leapMarker <:+: ln) →
      get_leap_seconds header = 18) ∧
    (∀ (pre : List (List Char)) (ln : List Char) (post : List (List Char)),
      (∀ l ∈ pre, ¬leapMarker <:+: l) → leapMarker <:+: ln →
      ((∀ n : ℤ, pyInt (ln.take 6) = some n → get_leap_seconds (pre ++ ln :: post) = n) ∧
        (pyInt (ln.take 6) = none → get_leap_seconds (pre ++ ln :: post) = 18))) := by
  constructor
  · intro header hnone
    induction header with
    | nil => rfl
    | cons l rest ih =>
      rw [get_leap_seconds, if_neg (hnone l (List.mem_cons_self l rest))]
      exact ih (fun x hx => hnone x (List.mem_cons_of_mem l hx))
  · intro pre ln post hpre hln
    induction pre with
    | nil =>
      constructor
      · intro n hn
        simp only [List.nil_append]
        rw [get_leap_seconds, if_pos hln, hn]
      · intro hn
        simp only [List.nil_append]
        rw [get_leap_seconds, if_pos hln, hn]
    | cons p pre2 ih =>
      have hp : ¬leapMarker <:+: p := hpre p (List.mem_cons_self p pre2)
      have hrest := ih (fun x hx => hpre x (List.mem_cons_of_mem p hx))
      constructor
      · intro n hn
        simp only [List.cons_append]
        rw [get_leap_seconds, if_neg hp]
        exact hrest.1 n hn
      · intro hn
        simp only [List.cons_append]
        rw [get_leap_seconds, if_neg hp]
        exact hrest.2 hn

/-- Witness for `leap_seconds_spec`: a header line with 18 in the first
six columns followed by the marker parses to 18. -/
theorem leap_seconds_spec_witness :
    get_leap_seconds ["    18 LEAP SECONDS".toList] = 18 :=
  (leap_seconds_spec.2 [] "    18 LEAP SECONDS".toList [] (by simp) (by decide)).1 18
    (by decide)

/-- Characterization of the fold underlying Python `min`: the result splits
the list into a strictly-larger-key prefix and a no-smaller-key suffix, so
the first element attaining the minimal key is returned. -/
theorem foldlMin_spec {α : Type} (key : α → ℚ) (xs : List α) :
    ∀ x : α,
      ∃ pre post,
        x :: xs = pre ++ (xs.foldl (fun best y => if key y < key best then y else best) x) :: post ∧
        (∀ y ∈ pre, key (xs.foldl (fun best y => if key y < key best then y else best) x) < key y) ∧
        (∀ y ∈ post, key (xs.foldl (fun best y => if key y < key best then y else best) x) ≤ key y) := by
  induction xs with
  | nil => exact fun x => ⟨[], [], rfl, by simp, by simp⟩
  | cons y ys ih =>
    intro x
    simp only [List.foldl_cons]
    obtain ⟨pre, post, hdecomp, hpre, hpost⟩ := ih (if key y < key x then y else x)
    by_cases hyx : key y < key x
    · rw [if_pos hyx] at hdecomp hpre hpost ⊢
      rcases pre with _ | ⟨p, pre2⟩
      · simp only [List.nil_append] at hdecomp
        obtain ⟨hm, hys⟩ := List.cons.inj hdecomp
        refine ⟨[x], post, ?_, ?_, hpost⟩
        · simp only [hdecomp, List.cons_append, List.nil_append]
        · intro z hz
          rw [List.mem_singleton.mp hz, ← hm]
          exact hyx
      · obtain ⟨hp, htail⟩ := List.cons.inj hdecomp
        refine ⟨x :: p :: pre2, post, ?_, ?_, hpost⟩
        · simp only [hdecomp, List.cons_append]
        · intro z hz
          rcases List.mem_cons.mp hz with hz1 | hz2
          · have h1 : key (ys.foldl (fun best y => if key y < key best then y else best) y)
                < key y := by
              conv_rhs => rw [hp]
              exact hpre p (List.mem_cons_self p pre2)
            rw [hz1]
            exact h1.trans hyx
          · exact hpre z hz2
    · rw [if_neg hyx] at hdecomp hpre hpost ⊢
      push_neg at hyx
      rcases pre with _ | ⟨p, pre2⟩
      · simp only [List.nil_append] at hdecomp
        obtain ⟨hm, hys⟩ := List.cons.inj hdecomp
        refine ⟨[], y :: post, ?_, by simp, ?_⟩
        · rw [List.nil_append, ← hm, ← hys]
        · intro z hz
          rcases List.mem_cons.mp hz with hz1 | hz2
          · rw [hz1, ← hm]
            exact hyx
          · exact hpost z hz2
      · obtain ⟨hp, htail⟩ := List.cons.inj hdecomp
        refine ⟨x :: y :: pre2, post, ?_, ?_, hpost⟩
        · simp only [List.cons_append]
          congr 2
        · intro z hz
          have h1 : key (ys.foldl (fun best y => if key y < key best then y else best) x)
              < key x := by
            conv_rhs => rw [hp]
            exact hpre p (List.mem_cons_self p pre2)
          rcases List.mem_cons.mp hz with hz1 | hz2
          · rw [hz1]
            exact h1
          · rcases List.mem_cons.mp hz2 with hz3 | hz4
            · rw [hz3]
              exact h1.trans_le hyx
            · exact hpre z (List.mem_cons_of_mem p hz4)

/-- C2: for a satellite present in the catalog, the selector returns the
record minimizing the folded offset `abs ((sow - Toe + 302400) % 604800 -
302400)` among the records for that satellite, the first such record in
catalog order when several attain the minimum. -/
theorem selector_min_spec (ephs : List EphRecord) (sv : List Char) (sow : ℚ)
    (h : ephs.filter (fun r => r.prn = sv) ≠ []) :
    ∃ m, selectEph ephs sv sow = some m ∧ m.prn = sv ∧
      (∀ y ∈ ephs.filter (fun r => r.prn = sv), selKey sow m.Toe ≤ selKey sow y.Toe) ∧
      ∃ pre post, ephs.filter (fun r => r.prn = sv) = pre ++ m :: post ∧
        ∀ y ∈ pre, selKey sow m.Toe < selKey sow y.Toe := by
  rcases hl : ephs.filter (fun r => r.prn = sv) with _ | ⟨x, xs⟩
  · exact absurd hl h
  obtain ⟨pre, post, hdecomp, hpre, hpost⟩ := foldlMin_spec (fun r => selKey sow r.Toe) xs x
  set m := xs.foldl
    (fun best y => if selKey sow y.Toe < selKey sow best.Toe then y else best) x with hm
  have hsel : selectEph ephs sv sow = some m := by
    unfold selectEph minByKey
    rw [hl]
  have hmem : m ∈ ephs.filter (fun r => r.prn = sv) := by
    rw [hl, hdecomp]
    exact List.mem_append_right pre (List.mem_cons_self m post)
  have hprn : m.prn = sv := by
    have := (List.mem_filter.mp hmem).2
    exact of_decide_eq_true this
  refine ⟨m, hsel, hprn, ?_, pre, post, by rw [hl]; exact hdecomp, hpre⟩
  intro y hy
  rw [hl] at hy
  rw [hdecomp] at hy
  rcases List.mem_append.mp hy with hy1 | hy2
  · exact le_of_lt (hpre y hy1)
  · rcases List.mem_cons.mp hy2 with rfl | hy3
    · exact le_refl _
    · exact hpost y hy3

/-- Witness for `selector_min_spec` on a two-record catalog. -/
theorem selector_min_spec_witness :
    ∃ m, selectEph [sampleRecA, sampleRecB] ['G', '0', '1'] 0 = some m ∧
      m.prn = ['G', '0', '1'] ∧
      (∀ y ∈ [sampleRecA, sampleRecB].filter (fun r => r.prn = ['G', '0', '1']),
        selKey 0 m.Toe ≤ selKey 0 y.Toe) ∧
      ∃ pre post,
        [sampleRecA, sampleRecB].filter (fun r => r.prn = ['G', '0', '1']) =
          pre ++ m :: post ∧
        ∀ y ∈ pre, selKey 0 m.Toe < selKey 0 y.Toe :=
  selector_min_spec [sampleRecA, sampleRecB] ['G', '0', '1'] 0 (by decide)

/-- The subtracting loop never leaves a value above the half week. -/
theorem loopSub_le (tk : ℝ) : loopSub tk ≤ 302400 := by
  induction tk using loopSub.induct with
  | case1 tk h ih => rw [loopSub, if_pos h]; exact ih
  | case2 tk h => rw [loopSub, if_neg h]; linarith [not_lt.mp h]

/-- The subtracting loop preserves a lower bound of minus the half week. -/
theorem loopSub_ge (tk : ℝ) : -302400 ≤ tk → -302400 ≤ loopSub tk := by
  induction tk using loopSub.induct with
  | case1 tk h ih =>
    intro _
    rw [loopSub, if_pos h]
    exact ih (by linarith)
  | case2 tk h => intro h0; rw [loopSub, if_neg h]; exact h0

/-- The subtracting loop only changes its input by whole weeks. -/
theorem loopSub_congr (tk : ℝ) : ∃ k : ℤ, loopSub tk = tk - 604800 * k := by
  induction tk using loopSub.induct with
  | case1 tk h ih =>
    obtain ⟨k, hk⟩ := ih
    refine ⟨k + 1, ?_⟩
    rw [loopSub, if_pos h, hk]
    push_cast
    ring
  | case2 tk h => exact ⟨0, by rw [loopSub, if_neg h]; simp⟩

/-- The adding loop never leaves a value below minus the half week. -/
theorem loopAdd_ge (tk : ℝ) : -302400 ≤ loopAdd tk := by
  induction tk using loopAdd.induct with
  | case1 tk h ih => rw [loopAdd, if_pos h]; exact ih
  | case2 tk h => rw [loopAdd, if_neg h]; linarith [not_lt.mp h]

/-- The adding loop preserves an upper bound of the half week. -/
theorem loopAdd_le (tk : ℝ) : tk ≤ 302400 → loopAdd tk ≤ 302400 := by
  induction tk using loopAdd.induct with
  | case1 tk h ih =>
    intro _
    rw [loopAdd, if_pos h]
    exact ih (by linarith)
  | case2 tk h => intro h0; rw [loopAdd, if_neg h]; exact h0

/-- The adding loop only changes its input by whole weeks. -/
theorem loopAdd_congr (tk : ℝ) : ∃ k : ℤ, loopAdd tk = tk + 604800 * k := by
  induction tk using loopAdd.induct with
  | case1 tk h ih =>
    obtain ⟨k, hk⟩ := ih
    refine ⟨k + 1, ?_⟩
    rw [loopAdd, if_pos h, hk]
    push_cast
    ring
  | case2 tk h => exact ⟨0, by rw [loopAdd, if_neg h]; simp⟩

/-- C3 (amended): `normalize_tk` always lands in the closed interval
`[-302400, 302400]` and differs from its input by a whole number of
weeks. -/
theorem normalize_tk_spec (x : ℝ) :
    (-302400 ≤ normalize_tk x ∧ normalize_tk x ≤ 302400) ∧
    ∃ k : ℤ, normalize_tk x = x - 604800 * k := by
  unfold normalize_tk
  refine ⟨⟨loopAdd_ge _, loopAdd_le _ (loopSub_le x)⟩, ?_⟩
  obtain ⟨k1, h1⟩ := loopSub_congr x
  obtain ⟨k2, h2⟩ := loopAdd_congr (loopSub x)
  refine ⟨k1 - k2, ?_⟩
  rw [h2, h1]
  push_cast
  ring

/-- C3 counterexample: at input 302400 the function returns 302400 itself,
which is outside the half-open interval `[-302400, 302400)` asserted by
the claim. -/
theorem normalize_tk_cex :
    normalize_tk 302400 = 302400 ∧ ¬normalize_tk 302400 < 302400 := by
  have h : normalize_tk (302400 : ℝ) = 302400 := by
    unfold normalize_tk
    rw [loopSub, if_neg (lt_irrefl _), loopAdd, if_neg (by norm_num)]
  exact ⟨h, by rw [h]; exact lt_irrefl _⟩

/-- C5: both `normalize_tk` while-loops diverge on the infinite inputs the
tokenizer can produce (an overflowing `Toe` token parses to `inf`, making
`tk = sow - Toe = -inf`; a negated one gives `+inf`): the loop update
leaves an infinity unchanged, so no iteration budget ever reaches the exit
condition and the propagator is not total on its reachable inputs. -/
theorem normalize_loops_diverge_at_infinite :
    (∀ n : ℕ, loopSubFuelE n ⊤ = none) ∧ (∀ n : ℕ, loopAddFuelE n ⊥ = none) := by
  constructor
  · intro n
    induction n with
    | zero => rw [loopSubFuelE, if_pos (EReal.coe_lt_top _)]
    | succ n ih => rw [loopSubFuelE, if_pos (EReal.coe_lt_top _), EReal.top_sub_coe, ih]
  · intro n
    induction n with
    | zero => rw [loopAddFuelE, if_pos (EReal.bot_lt_coe _)]
    | succ n ih => rw [loopAddFuelE, if_pos (EReal.bot_lt_coe _), EReal.bot_add, ih]

/-- C9: the orbit propagator is a pure function of the ephemeris record,
the observation instant and the leap-second count — identical inputs give
identical outputs, including all intermediates. -/
theorem propagate_deterministic (e1 e2 : EphRecord) (t1 t2 : Epoch) (l1 l2 : ℤ)
    (he : e1 = e2) (ht : t1 = t2) (hl : l1 = l2) :
    compute_gps_ecef e1 t1 l1 = compute_gps_ecef e2 t2 l2 := by
  subst he
  subst ht
  subst hl
  rfl

/-- Witness for `propagate_deterministic` at a concrete record and time. -/
theorem propagate_deterministic_witness :
    compute_gps_ecef sampleRecA ⟨2023, 9, 9, 0, 0, 9⟩ 18 =
      compute_gps_ecef sampleRecA ⟨2023, 9, 9, 0, 0, 9⟩ 18 :=
  propagate_deterministic sampleRecA sampleRecA ⟨2023, 9, 9, 0, 0, 9⟩
    ⟨2023, 9, 9, 0, 0, 9⟩ 18 18 rfl rfl rfl

/-- The sine function is 1-Lipschitz. -/
theorem abs_sin_sub_sin_le (a b : ℝ) : |Real.sin a - Real.sin b| ≤ |a - b| := by
  rw [Real.sin_sub_sin, abs_mul, abs_mul]
  have h1 : |Real.sin ((a - b) / 2)| ≤ |(a - b) / 2| := Real.abs_sin_le_abs
  have h2 : |Real.cos ((a + b) / 2)| ≤ 1 := Real.abs_cos_le_one _
  have h3 : |(2 : ℝ)| = 2 := by norm_num
  calc |(2 : ℝ)| * |Real.sin ((a - b) / 2)| * |Real.cos ((a + b) / 2)|
      ≤ |(2 : ℝ)| * |(a - b) / 2| * 1 := by
        apply mul_le_mul _ h2 (abs_nonneg _) (by positivity)
        exact mul_le_mul_of_nonneg_left h1 (abs_nonneg _)
    _ = |a - b| := by
        rw [h3, mul_one, abs_div]
        rw [show |(2:ℝ)| = 2 by norm_num]
        ring

/-- Successive differences of the Kepler iteration shrink at least
geometrically with ratio the eccentricity. -/
theorem kepler_diff_le (ecc Mk : ℝ) (h0 : 0 ≤ ecc) (i : ℕ) :
    |keplerSeq ecc Mk (i + 1) - keplerSeq ecc Mk i| ≤ ecc ^ (i + 1) := by
  induction i with
  | zero =>
    rw [show keplerSeq ecc Mk 1 = Mk + ecc * Real.sin (keplerSeq ecc Mk 0) from rfl,
      show keplerSeq ecc Mk 0 = Mk from rfl]
    rw [add_sub_cancel_left, abs_mul, abs_of_nonneg h0, pow_one]
    calc ecc * |Real.sin Mk| ≤ ecc * 1 :=
      mul_le_mul_of_nonneg_left (Real.abs_sin_le_one Mk) h0
    _ = ecc := mul_one ecc
  | succ i ih =>
    have hstep : keplerSeq ecc Mk (i + 1 + 1) - keplerSeq ecc Mk (i + 1) =
        ecc * (Real.sin (keplerSeq ecc Mk (i + 1)) - Real.sin (keplerSeq ecc Mk i)) := by
      rw [show keplerSeq ecc Mk (i + 1 + 1) =
          Mk + ecc * Real.sin (keplerSeq ecc Mk (i + 1)) from rfl,
        show keplerSeq ecc Mk (i + 1) =
          Mk + ecc * Real.sin (keplerSeq ecc Mk i) from rfl]
      ring
    rw [hstep, abs_mul, abs_of_nonneg h0]
    calc ecc * |Real.sin (keplerSeq ecc Mk (i + 1)) - Real.sin (keplerSeq ecc Mk i)|
        ≤ ecc * |keplerSeq ecc Mk (i + 1) - keplerSeq ecc Mk i| :=
          mul_le_mul_of_nonneg_left (abs_sin_sub_sin_le _ _) h0
      _ ≤ ecc * ecc ^ (i + 1) := mul_le_mul_of_nonneg_left ih h0
      _ = ecc ^ (i + 1 + 1) := by ring

/-- C4 (amended): for eccentricities up to 0.01 — the realistic GPS range —
the Kepler fixed-point iteration reaches the `1e-12` stopping condition
within the loop's 10 iterations, for every mean anomaly. -/
theorem kepler_converges_small_ecc (ecc Mk : ℝ) (h0 : 0 ≤ ecc) (h1 : ecc ≤ 1 / 100) :
    ∃ i, i < 10 ∧ |keplerSeq ecc Mk (i + 1) - keplerSeq ecc Mk i| < 1e-12 := by
  refine ⟨9, by norm_num, ?_⟩
  have h := kepler_diff_le ecc Mk h0 9
  have h2 : ecc ^ 10 ≤ (1 / 100 : ℝ) ^ 10 := pow_le_pow_left₀ h0 h1 10
  calc |keplerSeq ecc Mk 10 - keplerSeq ecc Mk 9| ≤ ecc ^ 10 := h
    _ ≤ (1 / 100 : ℝ) ^ 10 := h2
    _ < 1e-12 := by norm_num

/-- Witness for `kepler_converges_small_ecc` at eccentricity 0. -/
theorem kepler_converges_small_ecc_witness :
    ∃ i, i < 10 ∧ |keplerSeq 0 0 (i + 1) - keplerSeq 0 0 i| < 1e-12 :=
  kepler_converges_small_ecc 0 0 (le_refl 0) (by norm_num)

/-- On the interval `[0.28, 0.312]` the sine difference quotient is at
least `237/250`. -/
theorem sin_diff_lower (a b : ℝ) (ha : 7 / 25 ≤ a) (hab : a ≤ b) (hb : b ≤ 39 / 125) :
    (237 / 250) * (b - a) ≤ Real.sin b - Real.sin a := by
  rcases eq_or_lt_of_le hab with rfl | hlt
  · simp
  · have hsin : Real.sin b - Real.sin a =
        2 * Real.sin ((b - a) / 2) * Real.cos ((b + a) / 2) := Real.sin_sub_sin b a
    have ht0 : 0 < (b - a) / 2 := by linarith
    have ht1 : (b - a) / 2 ≤ 2 / 125 := by linarith
    have hsin_t : (b - a) / 2 * (15624 / 15625) ≤ Real.sin ((b - a) / 2) := by
      have hcube := Real.sin_gt_sub_cube ht0 (by linarith)
      have hsq : ((b - a) / 2) ^ 2 ≤ (2 / 125) ^ 2 := by nlinarith
      nlinarith
    have hm0 : 7 / 25 ≤ (b + a) / 2 := by linarith
    have hm1 : (b + a) / 2 ≤ 39 / 125 := by linarith
    have hcos : (29729 / 31250 : ℝ) ≤ Real.cos ((b + a) / 2) := by
      have hne : (b + a) / 2 ≠ 0 := by linarith
      have := Real.one_sub_sq_div_two_lt_cos hne
      have hsq : ((b + a) / 2) ^ 2 ≤ (39 / 125) ^ 2 := by nlinarith
      nlinarith
    have hsin_t_pos : 0 < Real.sin ((b - a) / 2) := by nlinarith
    rw [hsin]
    nlinarith [mul_le_mul hsin_t hcos (by norm_num) (le_of_lt hsin_t_pos)]

/-- Invariant of the Kepler iteration at eccentricity `0.1` and mean
anomaly `0.28`: the iterates stay in `[0.28, 0.312]` and successive
differences shrink no faster than ratio `237/2500` per step. -/
theorem kepler_cex_invariant (i : ℕ) :
    7 / 25 ≤ keplerSeq (1 / 10) (7 / 25) i ∧
    keplerSeq (1 / 10) (7 / 25) i ≤ 39 / 125 ∧
    (2745 / 100000) * (237 / 2500) ^ i ≤
      keplerSeq (1 / 10) (7 / 25) (i + 1) - keplerSeq (1 / 10) (7 / 25) i := by
  induction i with
  | zero =>
    have hE0 : keplerSeq (1 / 10) (7 / 25) 0 = 7 / 25 := rfl
    have hE1 : keplerSeq (1 / 10) (7 / 25) 1 =
        7 / 25 + 1 / 10 * Real.sin (7 / 25) := by
      rw [show keplerSeq (1 / 10) (7 / 25) 1 =
        7 / 25 + 1 / 10 * Real.sin (keplerSeq (1 / 10) (7 / 25) 0) from rfl, hE0]
    refine ⟨by rw [hE0], by rw [hE0]; norm_num, ?_⟩
    rw [hE0, hE1]
    have hcube := Real.sin_gt_sub_cube (show (0:ℝ) < 7 / 25 by norm_num)
      (show (7:ℝ) / 25 ≤ 1 by norm_num)
    norm_num at hcube ⊢
    nlinarith
  | succ i ih =>
    obtain ⟨hl, hu, hd⟩ := ih
    have hdpos : (0 : ℝ) < (2745 / 100000) * (237 / 2500) ^ i := by positivity
    have hmono : keplerSeq (1 / 10) (7 / 25) i ≤ keplerSeq (1 / 10) (7 / 25) (i + 1) := by
      linarith
    have hEi_pos : (0 : ℝ) < keplerSeq (1 / 10) (7 / 25) i := by linarith
    have hstep1 : keplerSeq (1 / 10) (7 / 25) (i + 1) =
        7 / 25 + 1 / 10 * Real.sin (keplerSeq (1 / 10) (7 / 25) i) := rfl
    have hsin_lt := Real.sin_lt hEi_pos
    have hsin_nonneg : 0 ≤ Real.sin (keplerSeq (1 / 10) (7 / 25) i) :=
      Real.sin_nonneg_of_nonneg_of_le_pi (le_of_lt hEi_pos)
        (by nlinarith [Real.pi_gt_three])
    have hu1 : keplerSeq (1 / 10) (7 / 25) (i + 1) ≤ 39 / 125 := by
      rw [hstep1]
      nlinarith
    have hl1 : 7 / 25 ≤ keplerSeq (1 / 10) (7 / 25) (i + 1) := by
      rw [hstep1]
      nlinarith
    refine ⟨hl1, hu1, ?_⟩
    have hstep2 : keplerSeq (1 / 10) (7 / 25) (i + 1 + 1) -
        keplerSeq (1 / 10) (7 / 25) (i + 1) =
        1 / 10 * (Real.sin (keplerSeq (1 / 10) (7 / 25) (i + 1)) -
          Real.sin (keplerSeq (1 / 10) (7 / 25) i)) := by
      rw [show keplerSeq (1 / 10) (7 / 25) (i + 1 + 1) =
          7 / 25 + 1 / 10 * Real.sin (keplerSeq (1 / 10) (7 / 25) (i + 1)) from rfl, hstep1]
      ring
    have hdiff := sin_diff_lower (keplerSeq (1 / 10) (7 / 25) i)
      (keplerSeq (1 / 10) (7 / 25) (i + 1)) hl hmono hu1
    rw [hstep2]
    calc (2745 / 100000 : ℝ) * (237 / 2500) ^ (i + 1)
        = (237 / 2500) * ((2745 / 100000) * (237 / 2500) ^ i) := by ring
      _ ≤ (237 / 2500) * (keplerSeq (1 / 10) (7 / 25) (i + 1) -
            keplerSeq (1 / 10) (7 / 25) i) := by
          apply mul_le_mul_of_nonneg_left hd (by norm_num)
      _ = 1 / 10 * ((237 / 250) * (keplerSeq (1 / 10) (7 / 25) (i + 1) -
            keplerSeq (1 / 10) (7 / 25) i)) := by ring
      _ ≤ 1 / 10 * (Real.sin (keplerSeq (1 / 10) (7 / 25) (i + 1)) -
            Real.sin (keplerSeq (1 / 10) (7 / 25) i)) := by
          apply mul_le_mul_of_nonneg_left hdiff (by norm_num)

/-- C4 counterexample: at eccentricity `0.1` (inside the claimed range
`[0, 0.1]`) and mean anomaly `0.28`, none of the loop's 10 iterations
meets the `1e-12` stopping condition: every successive difference stays
above `2745/100000 * (237/2500)^9 > 1e-12`. -/
theorem kepler_ten_iterations_cex :
    (0 : ℝ) ≤ 1 / 10 ∧ (1 / 10 : ℝ) ≤ 1 / 10 ∧
    ¬∃ i, i < 10 ∧
      |keplerSeq (1 / 10) (7 / 25) (i + 1) - keplerSeq (1 / 10) (7 / 25) i| < 1e-12 := by
  refine ⟨by norm_num, le_refl _, ?_⟩
  rintro ⟨i, hi, habs⟩
  obtain ⟨_, _, hd⟩ := kepler_cex_invariant i
  have habs2 : keplerSeq (1 / 10) (7 / 25) (i + 1) - keplerSeq (1 / 10) (7 / 25) i <
      1e-12 := (abs_lt.mp habs).2
  have hri : (237 / 2500 : ℝ) ^ 9 ≤ (237 / 2500) ^ i :=
    pow_le_pow_of_le_one (by norm_num) (by norm_num) (by omega)
  have hstep : (2745 / 100000 : ℝ) * (237 / 2500) ^ 9 ≤
      (2745 / 100000) * (237 / 2500) ^ i :=
    mul_le_mul_of_nonneg_left hri (by norm_num)
  have hnum : (1e-12 : ℝ) < (2745 / 100000) * (237 / 2500) ^ 9 := by norm_num
  linarith

end Gnss
